import Mathlib

/-!
Verification of `src/tfjs-backend-wasm/src/util.h` (namespace `tfjs::util`).

The file contains two functions:

* `size_from_shape(const std::vector<int>& shape)`: starts an `int`
  accumulator at 1 and multiplies it, left to right, by every element of
  `shape`, returning the accumulator.  `int` is the 32-bit two's-complement
  machine integer of the wasm target, so each multiplication wraps modulo
  2^32 into the signed range.
* `log_vector(const std::vector<T>& v)`: prints `[`, then each value with
  `printf("%d,", value)` (decimal text followed by a comma, also after the
  last element), then `]` and a newline.

We embed the shapes as `List Int`, the 32-bit accumulator arithmetic as
explicit reduction into the signed 32-bit range, and the printer as the
string it writes to the output stream.
-/

/-- Reduction of an integer into the signed 32-bit range, the value a C++
`int` holds after two's-complement wraparound. -/
def toInt32 (n : Int) : Int :=
  (n + 2147483648) % 4294967296 - 2147483648

/-- Embedding of `size_from_shape`:
`int prod = 1; for (const auto& v : shape) prod *= v; return prod;`
where `prod *= v` is a 32-bit `int` multiplication. -/
def size_from_shape (shape : List Int) : Int :=
  shape.foldl (fun prod v => toInt32 (prod * v)) 1

/-- Embedding of `log_vector` for `T = int`: the exact character sequence
the calls `printf("[")`, `printf("%d,", value)` for each element, and
`printf("]\n")` append to the output stream. -/
def log_vector (v : List Int) : String :=
  (v.foldl (fun acc x => acc ++ (toString x ++ ",")) "[") ++ "]\n"

/-- Executable check that, starting from accumulator `acc`, every
intermediate left-to-right product over the list stays inside the signed
32-bit range, i.e. the C++ accumulation never overflows. -/
def no_overflow32 (acc : Int) : List Int → Bool
  | [] => true
  | v :: rest =>
      decide (-2147483648 ≤ acc * v) && decide (acc * v < 2147483648)
        && no_overflow32 (acc * v) rest

/-- A call of `size_from_shape` as a state transformer over an arbitrary
outside world `σ`: the body of the C++ function reads and writes no
global or static state, so the world component passes through unchanged
and the result depends on the shape argument alone. -/
def size_from_shape_run {σ : Type} (world : σ) (shape : List Int) : σ × Int :=
  (world, size_from_shape shape)

/- ## Arithmetic lemmas about the 32-bit wraparound -/

lemma toInt32_emod (a : Int) : toInt32 a % 4294967296 = a % 4294967296 := by
  unfold toInt32; omega

lemma toInt32_congr {a b : Int}
    (h : a % 4294967296 = b % 4294967296) : toInt32 a = toInt32 b := by
  unfold toInt32; omega

lemma toInt32_lb (a : Int) : -2147483648 ≤ toInt32 a := by
  unfold toInt32; omega

lemma toInt32_ub (a : Int) : toInt32 a < 2147483648 := by
  unfold toInt32; omega

lemma toInt32_of_range {a : Int}
    (h1 : -2147483648 ≤ a) (h2 : a < 2147483648) : toInt32 a = a := by
  unfold toInt32; omega

lemma toInt32_mul_left (a b : Int) :
    toInt32 (toInt32 a * b) = toInt32 (a * b) := by
  refine toInt32_congr ?_
  calc toInt32 a * b % 4294967296
      = toInt32 a % 4294967296 * (b % 4294967296) % 4294967296 :=
        Int.mul_emod ..
    _ = a % 4294967296 * (b % 4294967296) % 4294967296 := by
        rw [toInt32_emod]
    _ = a * b % 4294967296 := (Int.mul_emod ..).symm

lemma toInt32_mul_right (a b : Int) :
    toInt32 (a * toInt32 b) = toInt32 (a * b) := by
  refine toInt32_congr ?_
  calc a * toInt32 b % 4294967296
      = a % 4294967296 * (toInt32 b % 4294967296) % 4294967296 :=
        Int.mul_emod ..
    _ = a % 4294967296 * (b % 4294967296) % 4294967296 := by
        rw [toInt32_emod]
    _ = a * b % 4294967296 := (Int.mul_emod ..).symm

/-- The wrapped left-to-right accumulation computes the 32-bit reduction of
the exact left-to-right product. -/
lemma foldl_wrap (s : List Int) : ∀ a : Int,
    s.foldl (fun p v => toInt32 (p * v)) (toInt32 a)
      = toInt32 (s.foldl (· * ·) a) := by
  induction s with
  | nil => intro a; rfl
  | cons v rest ih =>
      intro a
      simp only [List.foldl_cons]
      rw [toInt32_mul_left, ih]

/-- `size_from_shape` returns the exact product of the shape reduced into
the signed 32-bit range. -/
lemma size_from_shape_eq (s : List Int) :
    size_from_shape s = toInt32 (s.foldl (· * ·) 1) := by
  have h1 : toInt32 1 = 1 := by decide
  unfold size_from_shape
  calc s.foldl (fun p v => toInt32 (p * v)) 1
      = s.foldl (fun p v => toInt32 (p * v)) (toInt32 1) := by rw [h1]
    _ = toInt32 (s.foldl (· * ·) 1) := foldl_wrap s 1

lemma foldl_mul_eq_prod (s : List Int) :
    s.foldl (· * ·) 1 = s.prod :=
  (List.prod_eq_foldl).symm

/-- When no intermediate product leaves the signed 32-bit range, the wrapped
accumulation agrees with the exact accumulation. -/
lemma foldl_wrap_of_no_overflow : ∀ (s : List Int) (acc : Int),
    no_overflow32 acc s = true →
    s.foldl (fun p v => toInt32 (p * v)) acc = s.foldl (· * ·) acc := by
  intro s
  induction s with
  | nil => intro acc _; rfl
  | cons v rest ih =>
      intro acc h
      simp only [no_overflow32, Bool.and_eq_true, decide_eq_true_eq] at h
      simp only [List.foldl_cons]
      rw [toInt32_of_range h.1.1 h.1.2]
      exact ih (acc * v) h.2

/- ## String lemmas for the printer -/

lemma str_append_assoc (a b c : String) : a ++ b ++ c = a ++ (b ++ c) := by
  apply String.ext
  simp [String.data_append, List.append_assoc]

lemma foldl_str_shift (f : Int → String) : ∀ (v : List Int) (s t : String),
    v.foldl (fun acc x => acc ++ f x) (s ++ t)
      = s ++ v.foldl (fun acc x => acc ++ f x) t := by
  intro v
  induction v with
  | nil => intro s t; rfl
  | cons x xs ih =>
      intro s t
      simp only [List.foldl_cons]
      rw [str_append_assoc, ih]

lemma str_append_empty (s : String) : s ++ "" = s := by
  apply String.ext
  simp [String.data_append]

lemma log_vector_format (v : List Int) :
    log_vector v
      = "[" ++ String.join (v.map fun x => toString x ++ ",") ++ "]\n" := by
  unfold log_vector
  have h0 : ("[" : String) = "[" ++ "" := (str_append_empty _).symm
  rw [h0, foldl_str_shift, str_append_empty]
  congr 1
  congr 1
  unfold String.join
  rw [List.foldl_map]

/- ## Claim theorems -/

/-- C1 counterexample: on the shape `[2^30, 4]` the fixed-width accumulator
wraps, so `size_from_shape` returns 0 while the arithmetic left-to-right
product of the extents is 2^32; the claim as stated fails for this shape. -/
theorem size_from_shape_not_exact_product :
    size_from_shape [1073741824, 4] = 0 ∧
    List.foldl (· * ·) 1 [(1073741824 : Int), 4] = 4294967296 ∧
    size_from_shape [1073741824, 4]
      ≠ List.foldl (· * ·) 1 [(1073741824 : Int), 4] := by
  refine ⟨by decide, by decide, by decide⟩

/-- C1 (amended): for every shape whose left-to-right intermediate products
all stay inside the signed 32-bit range, `size_from_shape` returns the
arithmetic product of all its extents, accumulated left-to-right starting
from 1. -/
theorem size_from_shape_exact_product_of_no_overflow (s : List Int)
    (h : no_overflow32 1 s = true) :
    size_from_shape s = s.foldl (· * ·) 1 := by
  unfold size_from_shape
  exact foldl_wrap_of_no_overflow s 1 h

/-- C1 witness: on `[2, 3, 4]` no intermediate product overflows and the
result is the arithmetic product 24. -/
theorem size_from_shape_exact_product_witness :
    no_overflow32 1 [2, 3, 4] = true ∧
    size_from_shape [2, 3, 4] = List.foldl (· * ·) 1 [(2 : Int), 3, 4] ∧
    size_from_shape [2, 3, 4] = 24 :=
  ⟨by decide, size_from_shape_exact_product_of_no_overflow [2, 3, 4] (by decide),
    by decide⟩

/-- C2: `size_from_shape` of the empty shape (rank 0, scalar) is exactly 1. -/
theorem size_from_shape_nil : size_from_shape [] = 1 := rfl

/-- C3: the accumulator is a fixed-width signed 32-bit integer with no
overflow guard: for every shape whose exact mathematical product lies
outside the representable range, the returned value is that product reduced
modulo 2^32 into the signed range (two's-complement wraparound), hence in
range and different from the exact product — neither widened nor saturated
nor an error. -/
theorem size_from_shape_wraps (s : List Int)
    (h : s.foldl (· * ·) 1 < -2147483648 ∨ 2147483647 < s.foldl (· * ·) 1) :
    size_from_shape s % 4294967296 = s.foldl (· * ·) 1 % 4294967296 ∧
    -2147483648 ≤ size_from_shape s ∧
    size_from_shape s < 2147483648 ∧
    size_from_shape s ≠ s.foldl (· * ·) 1 := by
  have he := size_from_shape_eq s
  refine ⟨?_, ?_, ?_, ?_⟩
  · rw [he]; exact toInt32_emod _
  · rw [he]; exact toInt32_lb _
  · rw [he]; exact toInt32_ub _
  · have hlb : -2147483648 ≤ size_from_shape s := by rw [he]; exact toInt32_lb _
    have hub : size_from_shape s < 2147483648 := by rw [he]; exact toInt32_ub _
    omega

/-- C3 witness: the shape `[2^30, 4]` has exact product 2^32, outside the
signed 32-bit range, and the wraparound result is 0. -/
theorem size_from_shape_wraps_witness :
    ((2147483647 : Int) < List.foldl (· * ·) 1 [(1073741824 : Int), 4]) ∧
    size_from_shape [1073741824, 4] % 4294967296
      = List.foldl (· * ·) 1 [(1073741824 : Int), 4] % 4294967296 ∧
    size_from_shape [1073741824, 4] ≠ List.foldl (· * ·) 1 [(1073741824 : Int), 4] :=
  ⟨by decide,
    (size_from_shape_wraps [1073741824, 4] (Or.inr (by decide))).1,
    (size_from_shape_wraps [1073741824, 4] (Or.inr (by decide))).2.2.2⟩

/-- C4: `log_vector` writes exactly one bracketed line: an opening bracket,
each value's decimal representation followed by a comma (also after the
last element), then a closing bracket and a newline; the empty sequence
gives `[]` plus the newline and `[1,2,3]` gives `[1,2,3,]` plus the
newline. -/
theorem log_vector_line_format :
    log_vector [] = "[]\n" ∧
    log_vector [1, 2, 3] = "[1,2,3,]\n" ∧
    ∀ v : List Int,
      log_vector v
        = "[" ++ String.join (v.map fun x => toString x ++ ",") ++ "]\n" :=
  ⟨by decide, by decide, log_vector_format⟩

/-- C5: a zero extent anywhere in the shape collapses the result of
`size_from_shape` to 0, whatever the other extents are. -/
theorem size_from_shape_zero (s : List Int) (h : (0 : Int) ∈ s) :
    size_from_shape s = 0 := by
  rw [size_from_shape_eq, foldl_mul_eq_prod, List.prod_eq_zero h]
  decide

/-- C5 witness: `size_from_shape [0, 3, 4] = 0`. -/
theorem size_from_shape_zero_witness :
    (0 : Int) ∈ [(0 : Int), 3, 4] ∧ size_from_shape [0, 3, 4] = 0 :=
  ⟨by decide, size_from_shape_zero [0, 3, 4] (by decide)⟩

/-- C6: `size_from_shape` performs no validation and signals no error: on
every shape containing a negative extent it still returns the (possibly
negative or sign-flipped) left-to-right product of whatever values were
supplied, reduced by the 32-bit accumulator, rather than rejecting the
input. -/
theorem size_from_shape_no_validation (s : List Int)
    (h : ∃ v ∈ s, v < 0) :
    size_from_shape s = toInt32 (s.foldl (· * ·) 1) :=
  size_from_shape_eq s

/-- C6 witness: the shape `[-2, 3]` contains a negative extent and the
function returns the negative product -6 instead of failing. -/
theorem size_from_shape_no_validation_witness :
    (∃ v ∈ [(-2 : Int), 3], v < 0) ∧
    size_from_shape [-2, 3] = toInt32 (List.foldl (· * ·) 1 [(-2 : Int), 3]) ∧
    size_from_shape [-2, 3] = -6 :=
  ⟨by decide, size_from_shape_no_validation [-2, 3] (by decide), by decide⟩

/-- C7: `size_from_shape` is invariant under any permutation of the
extents of the shape. -/
theorem size_from_shape_perm (s t : List Int) (h : s.Perm t) :
    size_from_shape s = size_from_shape t := by
  rw [size_from_shape_eq, size_from_shape_eq, foldl_mul_eq_prod,
    foldl_mul_eq_prod, h.prod_eq]

/-- C7 witness: `[2, 3, 4]` and `[4, 3, 2]` are permutations of each other
and get the same element count. -/
theorem size_from_shape_perm_witness :
    List.Perm [(2 : Int), 3, 4] [4, 3, 2] ∧
    size_from_shape [2, 3, 4] = size_from_shape [4, 3, 2] :=
  ⟨by decide, size_from_shape_perm [2, 3, 4] [4, 3, 2] (by decide)⟩

/-- C8: `size_from_shape` is deterministic and pure: run as a state
transformer over any outside world, it leaves the world untouched, its
result does not depend on the world, and any two invocations on the same
shape return the same value. -/
theorem size_from_shape_pure {σ : Type} (w w2 : σ) (s : List Int) :
    (size_from_shape_run w s).1 = w ∧
    (size_from_shape_run w s).2 = (size_from_shape_run w2 s).2 ∧
    (size_from_shape_run w s).2 = size_from_shape s :=
  ⟨rfl, rfl, rfl⟩

/-- C9: `size_from_shape` is multiplicative over concatenation of shapes,
under the same fixed-width 32-bit accumulator arithmetic: the count of a
concatenated shape is the 32-bit product of the two counts. -/
theorem size_from_shape_append (s t : List Int) :
    size_from_shape (s ++ t)
      = toInt32 (size_from_shape s * size_from_shape t) := by
  rw [size_from_shape_eq, size_from_shape_eq, size_from_shape_eq,
    foldl_mul_eq_prod, foldl_mul_eq_prod, foldl_mul_eq_prod,
    List.prod_append, toInt32_mul_left, toInt32_mul_right]
